import Mathlib

/-!
Verification development for the document-categoriser repository
(src/categorize.py, src/build_index.py, src/generate_moc.py).

The Python sources are shallowly embedded below: text is `List Char` or
`String`, the dynamic JSON values appearing in the scripts are the
inductive `Json`, the external classification service is an oracle
mapping attempt numbers to optional response texts (a missing response
models an exception raised by the call), and the filesystem effects of
the batch workflow are recorded as an explicit event trace.
-/

set_option maxHeartbeats 1000000

namespace DocCat

/-! ## Character utilities (Python string operations used in categorize.py) -/

/-- Whitespace test used by the model for Python's str.strip and the
regex class \s (common subset: space, tab, newline, carriage return). -/
def isWs (c : Char) : Bool := c = ' ' || c = '\t' || c = '\n' || c = '\r'

/-- Model of Python str.strip(): drop whitespace at both ends. -/
def pyStrip (s : List Char) : List Char :=
  ((s.dropWhile isWs).reverse.dropWhile isWs).reverse

/-- The code-fence character (U+0060). -/
def fenceChar : Char := Char.ofNat 96

/-- Model of re.sub applied with the anchored pattern that removes a
leading code fence: three fence characters, the letters j s o, an
optional n, then any whitespace.  (categorize.py line 194) -/
def stripFenceOpen (s : List Char) : List Char :=
  match s with
  | c1 :: c2 :: c3 :: 'j' :: 's' :: 'o' :: rest =>
    if c1 = fenceChar && c2 = fenceChar && c3 = fenceChar then
      match rest with
      | 'n' :: r => r.dropWhile isWs
      | r => r.dropWhile isWs
    else s
  | _ => s

/-- Model of re.sub applied with the anchored pattern that removes a
trailing code fence: any whitespace followed by three fence characters
at the end of the text.  (categorize.py line 195) -/
def stripFenceClose (s : List Char) : List Char :=
  match s.reverse with
  | c1 :: c2 :: c3 :: rest =>
    if c1 = fenceChar && c2 = fenceChar && c3 = fenceChar then
      (rest.dropWhile isWs).reverse
    else s
  | _ => s

/-- Model of the defensive JSON isolation in categorize.py lines
197-201: take the slice from the first brace-open to the last
brace-close when that slice is non-degenerate, otherwise leave the
text unchanged. -/
def extractBraces (s : List Char) : List Char :=
  let t := s.dropWhile (· ≠ '{')
  let u := (t.reverse.dropWhile (· ≠ '}')).reverse
  if t.isEmpty || u.isEmpty then s else u

/-- The response post-processing pipeline of categorize.py lines
191-201: strip, remove a leading and a trailing code fence, isolate
the brace-delimited payload. -/
def findJson (s : String) : String :=
  String.mk (extractBraces (stripFenceClose (stripFenceOpen (pyStrip s.data))))

/-! ## Dynamic JSON values and a subset parser for json.loads

The scripts treat parsed JSON dynamically.  `Json` covers the value
shapes the pipeline manipulates: strings, flat arrays of strings,
integers, booleans and null.  The parser below models json.loads on
this subset (no escape sequences, no floats, no nested containers);
every claim is settled on inputs inside the subset. -/

inductive Json where
  | str (s : String)
  | arr (xs : List String)
  | num (n : Int)
  | bool (b : Bool)
  | null
deriving DecidableEq

/-- Parse a JSON string literal (no escape sequences). -/
def parseStringLit : List Char → Option (String × List Char)
  | '"' :: rest =>
    let v := rest.takeWhile (· ≠ '"')
    match rest.dropWhile (· ≠ '"') with
    | '"' :: r => some (String.mk v, r)
    | _ => none
  | _ => none

def skipWs (s : List Char) : List Char := s.dropWhile isWs

/-- Decimal digits to a natural number. -/
def digitsToNat (ds : List Char) : Nat :=
  ds.foldl (fun a c => a * 10 + (c.toNat - 48)) 0

/-- Parse the items of a JSON array of strings, up to and including the
closing bracket. -/
def parseArrItems : Nat → List Char → Option (List String × List Char)
  | 0, _ => none
  | fuel + 1, s =>
    match parseStringLit (skipWs s) with
    | none => none
    | some (v, r) =>
      match skipWs r with
      | ']' :: r2 => some ([v], r2)
      | ',' :: r2 =>
        match parseArrItems fuel r2 with
        | some (vs, r3) => some (v :: vs, r3)
        | none => none
      | _ => none

/-- Parse a JSON value of the subset. -/
def parseValue (fuel : Nat) (s : List Char) : Option (Json × List Char) :=
  match skipWs s with
  | '[' :: r =>
    match skipWs r with
    | ']' :: r2 => some (Json.arr [], r2)
    | _ =>
      match parseArrItems fuel r with
      | some (vs, r2) => some (Json.arr vs, r2)
      | none => none
  | 't' :: 'r' :: 'u' :: 'e' :: r => some (Json.bool true, r)
  | 'f' :: 'a' :: 'l' :: 's' :: 'e' :: r => some (Json.bool false, r)
  | 'n' :: 'u' :: 'l' :: 'l' :: r => some (Json.null, r)
  | '-' :: r =>
    let ds := r.takeWhile Char.isDigit
    if ds.isEmpty then none
    else some (Json.num (-(digitsToNat ds : Int)), r.dropWhile Char.isDigit)
  | c :: r =>
    if c.isDigit then
      let ds := (c :: r).takeWhile Char.isDigit
      some (Json.num (digitsToNat ds : Nat), (c :: r).dropWhile Char.isDigit)
    else
      match parseStringLit (c :: r) with
      | some (v, rest) => some (Json.str v, rest)
      | none => none
  | [] => none

/-- A parsed JSON object: association list of keys to values, in
source order. -/
abbrev JDict := List (String × Json)

def dictGet (d : JDict) (k : String) : Option Json :=
  match d.find? (fun p => p.1 == k) with
  | some p => some p.2
  | none => none

/-- Parse the members of a JSON object, up to and including the
closing brace. -/
def parseMembers : Nat → List Char → Option (JDict × List Char)
  | 0, _ => none
  | fuel + 1, s =>
    match parseStringLit (skipWs s) with
    | none => none
    | some (k, r) =>
      match skipWs r with
      | ':' :: r2 =>
        match parseValue fuel r2 with
        | none => none
        | some (v, r3) =>
          match skipWs r3 with
          | '}' :: r4 => some ([(k, v)], r4)
          | ',' :: r4 =>
            match parseMembers fuel r4 with
            | some (ms, r5) => some ((k, v) :: ms, r5)
            | none => none
          | _ => none
      | _ => none

/-- Model of json.loads restricted to object payloads (the shape the
classifier expects); fails on anything else. -/
def json_loads (s : String) : Option JDict :=
  let cs := s.data
  match skipWs cs with
  | '{' :: r =>
    match skipWs r with
    | '}' :: r2 => if (skipWs r2).isEmpty then some [] else none
    | _ =>
      match parseMembers cs.length r with
      | some (ms, rest) => if (skipWs rest).isEmpty then some ms else none
      | none => none
  | _ => none

/-- Model of json.loads on a top-level non-object value of the subset
(used both to model the TypeError path of the classifier and the tags
normalization of build_index.py). -/
def json_loads_top (s : String) : Option Json :=
  match parseValue s.data.length s.data with
  | some (v, rest) => if (skipWs rest).isEmpty then some v else none
  | none => none

/-! ## categorize.py: configuration, validation, frontmatter -/

/-- CONFIG retry_attempts (categorize.py line 60). -/
def retry_attempts : Nat := 3

/-- The fixed category table CATEGORIES of categorize.py lines 65-69,
in source order. -/
def CATEGORIES : List (String × List String) :=
  [("areas", ["health", "finance", "career", "family"]),
   ("resources", ["data-science", "programming", "business", "personal-dev"]),
   ("archive", ["old-projects", "completed", "outdated"])]

/-- Outcome of a Python call that either returns a boolean or raises
an exception that the retry loop does not catch. -/
inductive PyResult where
  | raised
  | ok (b : Bool)
deriving DecidableEq

/-- Model of the validation method of categorize.py lines 222-236.
Returns ok of the boolean outcome; returns raised when the Python
code would raise a TypeError instead of returning, namely when the
category value is an unhashable list used as a dict key probe.
A missing key, an unknown category string, or a subcategory that is
not the right string gives ok false, exactly as in the source. -/
def validate_result (result : JDict) : PyResult :=
  match dictGet result "category", dictGet result "subcategory" with
  | some cat, some sub =>
    match cat with
    | Json.arr _ => PyResult.raised
    | Json.str category =>
      match CATEGORIES.find? (fun p => p.1 == category) with
      | none => PyResult.ok false
      | some (_, subs) =>
        match sub with
        | Json.str subcategory => PyResult.ok (subs.contains subcategory)
        | _ => PyResult.ok false
    | _ => PyResult.ok false
  | _, _ => PyResult.ok false

/-- Model of json.dumps on the subset of values that can sit in the
tags field (categorize.py line 250). -/
def dumpJson : Json → String
  | Json.str s => "\"" ++ s ++ "\""
  | Json.arr xs => "[" ++ String.intercalate ", " (xs.map (fun s => "\"" ++ s ++ "\"")) ++ "]"
  | Json.num n => toString n
  | Json.bool true => "true"
  | Json.bool false => "false"
  | Json.null => "null"

/-- Does the text start with the given prefix (Python str.startswith,
computed on the character lists so that it evaluates by kernel
reduction)? -/
def startsWithList : List Char → List Char → Bool
  | _, [] => true
  | [], _ :: _ => false
  | a :: as, b :: bs => a == b && startsWithList as bs

def pyStartsWith (s p : String) : Bool := startsWithList s.data p.data

/-- Lexicographic order on code points, modelling how Python sorted()
orders file names (computed on the character lists so that it
evaluates by kernel reduction). -/
def charsLe : List Char → List Char → Bool
  | [], _ => true
  | _ :: _, [] => false
  | a :: as, b :: bs =>
    if a.toNat < b.toNat then true
    else if b.toNat < a.toNat then false
    else charsLe as bs

def nameLe (a b : String) : Bool := charsLe a.data b.data

/-- Model of pathlib's stem: the file name with its final suffix
removed; a dot at position zero does not start a suffix. -/
def stemOf (name : String) : String :=
  let rev := name.data.reverse
  match rev.dropWhile (· ≠ '.') with
  | [] => name
  | _ :: rest => if rest.isEmpty then name else String.mk rest.reverse

/-- Read a string value out of a classification dict; used only after
validation has guaranteed the value is a string (categorize.py
interpolates the raw value into an f-string). -/
def getStrD (d : JDict) (k : String) : String :=
  match dictGet d k with
  | some (Json.str s) => s
  | _ => ""

/-- Model of DocumentCategorizer.add_frontmatter (lines 238-256).  If
the content already starts with the header marker the content is
returned unchanged; otherwise the frontmatter block is synthesized
and prepended. -/
def add_frontmatter (stem : String) (content : String) (c : JDict) (today : String) : String :=
  if pyStartsWith content "---" then content
  else
    "---\ntitle: \"" ++ stem ++ "\"\ncategory: " ++ getStrD c "category"
      ++ "\nsubcategory: " ++ getStrD c "subcategory"
      ++ "\ntags: " ++ dumpJson ((dictGet c "tags").getD (Json.arr []))
      ++ "\nsummary: \"" ++ (match dictGet c "summary" with
                             | some (Json.str s) => s
                             | some j => dumpJson j
                             | none => "")
      ++ "\"\nprocessed: " ++ today ++ "\n---\n\n" ++ content

/-! ## categorize.py: the classification call with retries

The external service is an oracle from attempt number to an optional
response text; none models an exception raised by the call itself.
Events record what the workflow does. -/

inductive Ev where
  | callService (file : String) (attempt : Nat)
  | writeTarget (path : String) (content : String)
  | removeSource (file : String)
  | markProcessed (file : String)
  | recordError (file : String) (reason : String)
  | saveCheckpoint (processed : List String)
  | saveResults
deriving DecidableEq

/-- Does an event modify, relocate or checkpoint a document? -/
def touchesDocs : Ev → Bool
  | .writeTarget _ _ => true
  | .removeSource _ => true
  | .markProcessed _ => true
  | _ => false

/-- Outcome of one attempt of the retry loop in classify_note (lines
183-216): success returns the validated dict; softFail is a
json.JSONDecodeError or ValueError, which the loop retries; hardFail
is any other exception (service call failure, or the TypeError raised
by validation on a non-dict payload or unhashable category), which
escapes the loop and is caught by the outer handler. -/
inductive AttemptResult where
  | success (r : JDict)
  | softFail
  | hardFail
deriving DecidableEq

def classifyAttempt (resp : Option String) : AttemptResult :=
  match resp with
  | none => .hardFail
  | some text =>
    match json_loads (findJson text) with
    | some r =>
      match validate_result r with
      | .raised => .hardFail
      | .ok true => .success r
      | .ok false => .softFail
    | none =>
      match json_loads_top (findJson text) with
      | some _ => .hardFail
      | none => .softFail

/-- The retry loop of classify_note, from attempt i with the given
remaining attempt budget.  Also returns the service-call events. -/
def classifyFrom (file : String) (responses : Nat → Option String) :
    Nat → Nat → Option JDict × List Ev
  | _, 0 => (none, [])
  | i, fuel + 1 =>
    match classifyAttempt (responses i) with
    | .success r => (some r, [Ev.callService file i])
    | .hardFail => (none, [Ev.callService file i])
    | .softFail =>
      if fuel = 0 then (none, [Ev.callService file i])
      else
        let rest := classifyFrom file responses (i + 1) fuel
        (rest.1, Ev.callService file i :: rest.2)

/-- Model of DocumentCategorizer.classify_note (lines 168-220): up to
retry_attempts attempts; a final soft failure or any hard failure is
caught by the outer handler and yields none.  Content reading, the
truncation of line 174 and the prompt construction are abstracted into
the response oracle, which is keyed by the file name. -/
def classify_note (file : String) (responses : Nat → Option String) :
    Option JDict × List Ev :=
  classifyFrom file responses 0 retry_attempts

/-! ## categorize.py: per-file processing and the run loop -/

structure PFile where
  name : String
  content : String
deriving DecidableEq

/-- One entry of self.results (lines 276-281 and 298-302). -/
structure RLog where
  file : String
  classification : JDict
  moved_to : String
  dry : Bool
deriving DecidableEq

/-- The mutable state of a DocumentCategorizer instance. -/
structure CatState where
  dry_run : Bool
  results : List RLog
  errors : List (String × String)
  processed_files : List String
deriving DecidableEq

/-- Set insertion for the processed_files set, keeping first-insertion
order. -/
def addElem (l : List String) (x : String) : List String :=
  if l.contains x then l else l ++ [x]

/-- The destination path relative to the project root:
output/category/subcategory/name (lines 288-290, 301). -/
def target_rel_path (c : JDict) (name : String) : String :=
  "output/" ++ getStrD c "category" ++ "/" ++ getStrD c "subcategory" ++ "/" ++ name

/-- Model of DocumentCategorizer.process_file (lines 258-306):
classify; on failure append an error entry and stop; in dry-run mode
append a result entry and stop; otherwise prepend the frontmatter,
write the destination file, remove the source file, append a result
entry and add the name to processed_files, in that order. -/
def process_file (st : CatState) (oracle : String → Nat → Option String)
    (f : PFile) (today : String) : CatState × List Ev :=
  match classify_note f.name (oracle f.name) with
  | (none, cevs) =>
    ({ st with errors := st.errors ++ [(f.name, "classification_failed")] },
     cevs ++ [Ev.recordError f.name "classification_failed"])
  | (some c, cevs) =>
    if st.dry_run then
      ({ st with results := st.results ++
          [{ file := f.name, classification := c,
             moved_to := "output/" ++ getStrD c "category" ++ "/"
               ++ getStrD c "subcategory" ++ "/", dry := true }] },
       cevs)
    else
      ({ st with
          results := st.results ++
            [{ file := f.name, classification := c,
               moved_to := target_rel_path c f.name, dry := false }],
          processed_files := addElem st.processed_files f.name },
       cevs ++ [Ev.writeTarget (target_rel_path c f.name)
                  (add_frontmatter (stemOf f.name) f.content c today),
                Ev.removeSource f.name, Ev.markProcessed f.name])

/-- Insertion sort by file name, modelling the sorted glob of line 158. -/
def insertByName (f : PFile) : List PFile → List PFile
  | [] => [f]
  | g :: gs => if nameLe f.name g.name then f :: g :: gs else g :: insertByName f gs

def sortByName (l : List PFile) : List PFile := l.foldr insertByName []

/-- Model of DocumentCategorizer.get_files_to_process (lines 150-166):
sort the source names, drop the names already in the checkpoint set,
then apply the limit.  A limit of zero is falsy in Python and applies
no truncation, exactly as in the source. -/
def get_files_to_process (processed : List String) (source : List PFile)
    (limit : Option Nat) : List PFile :=
  let files := (sortByName source).filter (fun f => !(processed.contains f.name))
  match limit with
  | some n => if n = 0 then files else files.take n
  | none => files

/-- The body of the run loop (lines 324-335): process each file, and
after every tenth file persist the checkpoint and the result log. -/
def runLoop (oracle : String → Nat → Option String) (today : String) :
    CatState → List PFile → Nat → CatState × List Ev
  | st, [], _ => (st, [])
  | st, f :: fs, i =>
    let pr := process_file st oracle f today
    let saveEvs := if i % 10 = 0
      then [Ev.saveCheckpoint pr.1.processed_files, Ev.saveResults]
      else ([] : List Ev)
    let rest := runLoop oracle today pr.1 fs (i + 1)
    (rest.1, pr.2 ++ saveEvs ++ rest.2)

/-- Model of DocumentCategorizer.run (lines 308-343): without the
resume flag the in-memory checkpoint set is cleared first; eligible
files are computed; with no eligible file the run returns before any
save; otherwise the loop runs and a final checkpoint plus result-log
save always follows, dry run or not. -/
def run (st : CatState) (oracle : String → Nat → Option String) (today : String)
    (source : List PFile) (limit : Option Nat) (resume : Bool) :
    CatState × List Ev :=
  let st1 := if resume then st else { st with processed_files := [] }
  let files := get_files_to_process st1.processed_files source limit
  if files.isEmpty then (st1, [])
  else
    let lp := runLoop oracle today st1 files 1
    (lp.1, lp.2 ++ [Ev.saveCheckpoint lp.1.processed_files, Ev.saveResults])

/-! ## build_index.py: tags normalization -/

/-- Model of the tags normalization of build_index.py lines 91-97:
the frontmatter value defaults to an empty sequence; a string value is
passed to json.loads and replaced by whatever that returns, of any
type; a string that does not parse as JSON is wrapped in a singleton
sequence; every non-string value is kept as is. -/
def normalize_tags (v : Option Json) : Json :=
  match v.getD (Json.arr []) with
  | Json.str s =>
    match json_loads_top s with
    | some j => j
    | none => Json.arr [s]
  | t => t

/-- The fields of an index entry relevant to the scanned metadata
(build_index.py lines 99-109); the values are dynamic. -/
structure IndexEntry where
  file : String
  title : Json
  tags : Json
  summary : Json
deriving DecidableEq

/-- Build the metadata fields of one index entry from the parsed
frontmatter mapping (the YAML parse itself is external). -/
def mk_index_entry (name : String) (fm : JDict) : IndexEntry :=
  { file := name
    title := (dictGet fm "title").getD (Json.str (stemOf name))
    tags := normalize_tags (dictGet fm "tags")
    summary := (dictGet fm "summary").getD (Json.str "") }

/-! ## generate_moc.py: tag grouping and the hub threshold -/

/-- CONFIG min_notes_for_tag_moc (generate_moc.py line 25). -/
def min_notes_for_tag_moc : Nat := 5

/-- A note as read back from the index by generate_moc.py (the fields
its grouping uses; tags of the well-formed sequence shape). -/
structure Note where
  file : String
  path : String
  category : String
  subcategory : String
  title : String
  tags : List String
  summary : String
deriving DecidableEq

/-- How many times group_notes appends this note to the by-tag bucket
of the given tag: once per occurrence of the tag in the note's tag
list, skipping the empty (falsy) tag (generate_moc.py lines 54-56). -/
def tag_occurrences (n : Note) (tag : String) : Nat :=
  if tag = "" then 0 else n.tags.count tag

/-- The by-tag bucket of group_notes for one tag: the notes in
iteration order with the multiplicity of their tag occurrences. -/
def by_tag (notes : List Note) (tag : String) : List Note :=
  notes.flatMap (fun n => List.replicate (tag_occurrences n tag) n)

/-- Whether the main loop of generate_moc.py (lines 232-235) writes a
hub file for this tag: the tag has a bucket (hence is a key of the
grouping) whose length meets the threshold; a length meeting the
positive threshold already implies the bucket is non-empty. -/
def tag_moc_generated (notes : List Note) (tag : String) : Bool :=
  min_notes_for_tag_moc ≤ (by_tag notes tag).length

/-- A concrete note used to instantiate the tag-hub threshold
scenario on explicit inputs. -/
def sampleNote (i : Nat) : Note :=
  { file := "f" ++ toString i ++ ".md", path := "p", category := "areas",
    subcategory := "health", title := "t" ++ toString i,
    tags := ["python"], summary := "" }

/-! ## Helper lemmas about the workflow model -/

theorem subset_addElem (l : List String) (x : String) : l ⊆ addElem l x := by
  unfold addElem
  split
  · exact fun a ha => ha
  · exact List.subset_append_left l [x]

theorem classifyFrom_events (file : String) (rs : Nat → Option String) :
    ∀ (fuel i : Nat), ∀ e ∈ (classifyFrom file rs i fuel).2,
      ∃ j, e = Ev.callService file j := by
  intro fuel
  induction fuel with
  | zero => intro i e he; simp [classifyFrom] at he
  | succ n ih =>
    intro i e he
    rw [classifyFrom] at he
    cases hA : classifyAttempt (rs i) <;> rw [hA] at he
    case success r =>
      simp at he; exact ⟨i, he⟩
    case hardFail =>
      simp at he; exact ⟨i, he⟩
    case softFail =>
      by_cases hn : n = 0
      · subst hn; simp at he; exact ⟨i, he⟩
      · simp [hn] at he
        rcases he with he | he
        · exact ⟨i, he⟩
        · exact ih (i + 1) e he

theorem classify_events (file : String) (rs : Nat → Option String) :
    ∀ e ∈ (classify_note file rs).2, ∃ j, e = Ev.callService file j :=
  classifyFrom_events file rs retry_attempts 0

theorem classifyAttempt_success (o : Option String) (r : JDict)
    (h : classifyAttempt o = AttemptResult.success r) :
    validate_result r = PyResult.ok true := by
  unfold classifyAttempt at h
  split at h
  · exact absurd h (by simp)
  · split at h
    · split at h
      · exact absurd h (by simp)
      · rename_i heq
        injection h with h2
        subst h2
        exact heq
      · exact absurd h (by simp)
    · split at h
      · exact absurd h (by simp)
      · exact absurd h (by simp)

theorem process_file_dry_run_eq (st : CatState) (o : String → Nat → Option String)
    (f : PFile) (today : String) :
    (process_file st o f today).1.dry_run = st.dry_run := by
  unfold process_file
  rcases hcl : classify_note f.name (o f.name) with ⟨_ | c, cevs⟩
  · rfl
  · by_cases hd : st.dry_run <;> simp [hd]

theorem process_file_processed_mono (st : CatState) (o : String → Nat → Option String)
    (f : PFile) (today : String) :
    st.processed_files ⊆ (process_file st o f today).1.processed_files := by
  unfold process_file
  rcases hcl : classify_note f.name (o f.name) with ⟨_ | c, cevs⟩
  · exact fun a ha => ha
  · by_cases hd : st.dry_run
    · simp [hd]
    · simp [hd]
      exact subset_addElem _ _

theorem process_file_errors_mono (st : CatState) (o : String → Nat → Option String)
    (f : PFile) (today : String) :
    st.errors ⊆ (process_file st o f today).1.errors := by
  unfold process_file
  rcases hcl : classify_note f.name (o f.name) with ⟨_ | c, cevs⟩
  · simp
  · by_cases hd : st.dry_run <;> simp [hd]

theorem process_file_outcome_count (st : CatState) (o : String → Nat → Option String)
    (f : PFile) (today : String) :
    (process_file st o f today).1.results.length + (process_file st o f today).1.errors.length
      = st.results.length + st.errors.length + 1 := by
  unfold process_file
  rcases hcl : classify_note f.name (o f.name) with ⟨_ | c, cevs⟩
  · simp; omega
  · by_cases hd : st.dry_run <;> simp [hd] <;> omega

theorem process_file_no_save (st : CatState) (o : String → Nat → Option String)
    (f : PFile) (today : String) (S : List String) :
    Ev.saveCheckpoint S ∉ (process_file st o f today).2 := by
  unfold process_file
  rcases hcl : classify_note f.name (o f.name) with ⟨_ | c, cevs⟩ <;>
    [skip; by_cases hd : st.dry_run] <;> simp [*] <;> intro he <;>
    rcases classify_events f.name (o f.name) (Ev.saveCheckpoint S) (by rw [hcl]; exact he) with ⟨j, hj⟩ <;>
    exact Ev.noConfusion hj

theorem process_file_dry (st : CatState) (o : String → Nat → Option String)
    (f : PFile) (today : String) (hd : st.dry_run = true) :
    (process_file st o f today).1.processed_files = st.processed_files ∧
      ∀ e ∈ (process_file st o f today).2, touchesDocs e = false := by
  unfold process_file
  rcases hcl : classify_note f.name (o f.name) with ⟨_ | c, cevs⟩
  · refine ⟨rfl, ?_⟩
    intro e he
    simp at he
    rcases he with he | he
    · rcases classify_events f.name (o f.name) e (by rw [hcl]; exact he) with ⟨j, hj⟩
      subst hj; rfl
    · subst he; rfl
  · simp [hd]
    intro e he
    rcases classify_events f.name (o f.name) e (by rw [hcl]; exact he) with ⟨j, hj⟩
    subst hj; rfl

theorem process_file_fail_error (st : CatState) (o : String → Nat → Option String)
    (f : PFile) (today : String)
    (h : (classify_note f.name (o f.name)).1 = none) :
    (f.name, "classification_failed") ∈ (process_file st o f today).1.errors := by
  unfold process_file
  rcases hcl : classify_note f.name (o f.name) with ⟨copt, cevs⟩
  rw [hcl] at h
  simp at h
  subst h
  simp

theorem runLoop_processed_mono (o : String → Nat → Option String) (today : String) :
    ∀ (fs : List PFile) (st : CatState) (i : Nat),
      st.processed_files ⊆ (runLoop o today st fs i).1.processed_files := by
  intro fs
  induction fs with
  | nil => intro st i a ha; exact ha
  | cons f fs ih =>
    intro st i a ha
    exact ih (process_file st o f today).1 (i + 1)
      (process_file_processed_mono st o f today ha)

theorem runLoop_saves_superset (o : String → Nat → Option String) (today : String) :
    ∀ (fs : List PFile) (st : CatState) (i : Nat) (S : List String),
      Ev.saveCheckpoint S ∈ (runLoop o today st fs i).2 →
      st.processed_files ⊆ S := by
  intro fs
  induction fs with
  | nil => intro st i S h; simp [runLoop] at h
  | cons f fs ih =>
    intro st i S h
    simp only [runLoop, List.mem_append] at h
    rcases h with (h | h) | h
    · exact absurd h (process_file_no_save st o f today S)
    · by_cases hi : i % 10 = 0
      · simp [hi] at h
        try subst h
        try rw [h]
        exact process_file_processed_mono st o f today
      · simp [hi] at h
    · intro a ha
      exact ih (process_file st o f today).1 (i + 1) S h
        (process_file_processed_mono st o f today ha)

theorem runLoop_outcome_count (o : String → Nat → Option String) (today : String) :
    ∀ (fs : List PFile) (st : CatState) (i : Nat),
      (runLoop o today st fs i).1.results.length
          + (runLoop o today st fs i).1.errors.length
        = st.results.length + st.errors.length + fs.length := by
  intro fs
  induction fs with
  | nil => intro st i; simp [runLoop]
  | cons f fs ih =>
    intro st i
    rw [runLoop]
    have h1 := ih (process_file st o f today).1 (i + 1)
    have h2 := process_file_outcome_count st o f today
    simp only [List.length_cons]
    omega

theorem runLoop_errors_mono (o : String → Nat → Option String) (today : String) :
    ∀ (fs : List PFile) (st : CatState) (i : Nat),
      st.errors ⊆ (runLoop o today st fs i).1.errors := by
  intro fs
  induction fs with
  | nil => intro st i a ha; exact ha
  | cons f fs ih =>
    intro st i a ha
    exact ih (process_file st o f today).1 (i + 1)
      (process_file_errors_mono st o f today ha)

theorem runLoop_fail_error (o : String → Nat → Option String) (today : String) :
    ∀ (fs : List PFile) (st : CatState) (i : Nat) (f : PFile), f ∈ fs →
      (classify_note f.name (o f.name)).1 = none →
      (f.name, "classification_failed") ∈ (runLoop o today st fs i).1.errors := by
  intro fs
  induction fs with
  | nil => intro st i f hf; simp at hf
  | cons g fs ih =>
    intro st i f hf hcl
    rcases List.mem_cons.mp hf with hf | hf
    · subst hf
      exact runLoop_errors_mono o today fs (process_file st o f today).1 (i + 1)
        (process_file_fail_error st o f today hcl)
    · exact ih (process_file st o g today).1 (i + 1) f hf hcl

theorem runLoop_dry (o : String → Nat → Option String) (today : String) :
    ∀ (fs : List PFile) (st : CatState) (i : Nat), st.dry_run = true →
      (runLoop o today st fs i).1.processed_files = st.processed_files ∧
        ∀ e ∈ (runLoop o today st fs i).2, touchesDocs e = false := by
  intro fs
  induction fs with
  | nil => intro st i hd; exact ⟨rfl, by simp [runLoop]⟩
  | cons f fs ih =>
    intro st i hd
    have hd1 : (process_file st o f today).1.dry_run = true := by
      rw [process_file_dry_run_eq]; exact hd
    have hpf := process_file_dry st o f today hd
    have hrec := ih (process_file st o f today).1 (i + 1) hd1
    constructor
    · rw [runLoop]
      calc (runLoop o today (process_file st o f today).1 fs (i + 1)).1.processed_files
          = (process_file st o f today).1.processed_files := hrec.1
        _ = st.processed_files := hpf.1
    · intro e he
      simp only [runLoop, List.mem_append] at he
      rcases he with (he | he) | he
      · exact hpf.2 e he
      · by_cases hi : i % 10 = 0
        · simp [hi] at he
          rcases he with he | he <;> rw [he] <;> rfl
        · simp [hi] at he
      · exact hrec.2 e he

theorem classifyFrom_sound (file : String) (rs : Nat → Option String) :
    ∀ (fuel i : Nat) (r : JDict), (classifyFrom file rs i fuel).1 = some r →
      validate_result r = PyResult.ok true := by
  intro fuel
  induction fuel with
  | zero => intro i r h; simp [classifyFrom] at h
  | succ n ih =>
    intro i r h
    rw [classifyFrom] at h
    cases hA : classifyAttempt (rs i) <;> rw [hA] at h
    case success r' =>
      simp at h; subst h; exact classifyAttempt_success _ _ hA
    case hardFail => simp at h
    case softFail =>
      by_cases hn : n = 0
      · subst hn; simp at h
      · simp [hn] at h
        exact ih (i + 1) r h

theorem run_false_eq (st : CatState) (o : String → Nat → Option String)
    (today : String) (source : List PFile) (limit : Option Nat) :
    run st o today source limit false
      = run { st with processed_files := [] } o today source limit true := rfl

theorem run_eq_of_empty (st : CatState) (o : String → Nat → Option String)
    (today : String) (source : List PFile) (limit : Option Nat)
    (hemp : (get_files_to_process st.processed_files source limit).isEmpty = true) :
    run st o today source limit true = (st, []) := by
  unfold run
  simp [hemp]

theorem run_eq_of_not_empty (st : CatState) (o : String → Nat → Option String)
    (today : String) (source : List PFile) (limit : Option Nat)
    (hemp : ¬(get_files_to_process st.processed_files source limit).isEmpty = true) :
    run st o today source limit true
      = ((runLoop o today st (get_files_to_process st.processed_files source limit) 1).1,
         (runLoop o today st (get_files_to_process st.processed_files source limit) 1).2
           ++ [Ev.saveCheckpoint
                 (runLoop o today st
                   (get_files_to_process st.processed_files source limit) 1).1.processed_files,
               Ev.saveResults]) := by
  unfold run
  simp [hemp]

/-! ## Lemmas for the response-parsing pipeline -/

theorem dropWhile_append_all {p : Char → Bool} :
    ∀ {a : List Char} (b : List Char), (∀ x ∈ a, p x = true) →
      List.dropWhile p (a ++ b) = List.dropWhile p b := by
  intro a
  induction a with
  | nil => intro b _; rfl
  | cons x xs ih =>
    intro b h
    rw [List.cons_append, List.dropWhile_cons]
    rw [h x (List.mem_cons_self x xs)]
    simp only [if_true]
    exact ih b (fun y hy => h y (List.mem_cons_of_mem x hy))

theorem isWs_ne_brace {x : Char} (h : isWs x = true) : x ≠ '{' ∧ x ≠ '}' := by
  unfold isWs at h
  simp only [Bool.or_eq_true, decide_eq_true_eq] at h
  rcases h with ((h | h) | h) | h <;> subst h <;> exact ⟨by decide, by decide⟩

theorem dropWhile_ne_append (c : Char) (a b : List Char) (h : c ∉ a) :
    List.dropWhile (fun x => decide (x ≠ c)) (a ++ b)
      = List.dropWhile (fun x => decide (x ≠ c)) b :=
  dropWhile_append_all b (fun _ hx => decide_eq_true (fun heq => h (heq ▸ hx)))

theorem dropWhile_ne_cons (c : Char) (l : List Char) :
    List.dropWhile (fun x => decide (x ≠ c)) (c :: l) = c :: l := by
  rw [List.dropWhile_cons]
  simp

/-- The defensive brace isolation returns exactly the brace-delimited
object when the text left of the object has no brace-open and the text
right of it has no brace-close. -/
theorem extractBraces_decomp (pre mid post : List Char)
    (hpre : '{' ∉ pre) (hpost : '}' ∉ post) :
    extractBraces (pre ++ '{' :: (mid ++ '}' :: post)) = '{' :: (mid ++ ['}']) := by
  have ht : (pre ++ '{' :: (mid ++ '}' :: post)).dropWhile (· ≠ '{')
      = '{' :: (mid ++ '}' :: post) := by
    rw [show ((· ≠ '{') : Char → Bool) = fun x => decide (x ≠ '{') from rfl]
    rw [dropWhile_ne_append '{' pre _ hpre, dropWhile_ne_cons]
  have hu : (('{' :: (mid ++ '}' :: post)).reverse.dropWhile (· ≠ '}')).reverse
      = '{' :: (mid ++ ['}']) := by
    have hrev : ('{' :: (mid ++ '}' :: post)).reverse
        = post.reverse ++ '}' :: (mid.reverse ++ ['{']) := by
      simp [List.reverse_cons, List.reverse_append, List.append_assoc]
    rw [hrev]
    rw [show ((· ≠ '}') : Char → Bool) = fun x => decide (x ≠ '}') from rfl]
    rw [dropWhile_ne_append '}' post.reverse _
      (fun hm => hpost (List.mem_reverse.mp hm)), dropWhile_ne_cons]
    simp [List.reverse_append, List.reverse_cons]
  unfold extractBraces
  simp only [ht, hu]
  simp

/-- Splitting an append equation at the first occurrence of a
character: if the left side exhibits the character after a prefix
without it, and the first block of the right side avoids it too, the
second block of the right side exhibits it the same way. -/
theorem split_first (c : Char) :
    ∀ (d pre rest x : List Char), pre ++ c :: rest = d ++ x →
      c ∉ pre → c ∉ d → ∃ pre2, x = pre2 ++ c :: rest ∧ c ∉ pre2 := by
  intro d
  induction d with
  | nil =>
    intro pre rest x h hpre _
    exact ⟨pre, by simpa using h.symm, hpre⟩
  | cons a d ih =>
    intro pre rest x h hpre hd
    cases pre with
    | nil =>
      simp only [List.nil_append, List.cons_append, List.cons.injEq] at h
      exact absurd (by rw [h.1]; exact List.mem_cons_self a d) hd
    | cons b pre =>
      simp only [List.cons_append, List.cons.injEq] at h
      exact ih pre rest x h.2
        (fun hm => hpre (List.mem_cons_of_mem b hm))
        (fun hm => hd (List.mem_cons_of_mem a hm))

/-- The mirror image of split_first, at the last occurrence of a
character. -/
theorem split_last (c : Char) (x e A post : List Char)
    (h : x ++ e = A ++ c :: post) (hpost : c ∉ post) (he : c ∉ e) :
    ∃ post2, x = A ++ c :: post2 ∧ c ∉ post2 := by
  have h1 : post.reverse ++ c :: A.reverse = e.reverse ++ x.reverse := by
    have h2 := congrArg List.reverse h
    simp only [List.reverse_append, List.reverse_cons, List.append_assoc] at h2
    simpa [List.append_assoc] using h2.symm
  obtain ⟨q, hq, hqc⟩ := split_first c e.reverse post.reverse A.reverse x.reverse h1
    (by simpa using hpost) (by simpa using he)
  refine ⟨q.reverse, ?_, by simpa using hqc⟩
  have h3 := congrArg List.reverse hq
  simpa [List.reverse_append, List.reverse_cons, List.append_assoc] using h3

/-- str.strip removes only whitespace, at the two ends. -/
theorem pyStrip_decomp (s : List Char) :
    ∃ d e, s = d ++ pyStrip s ++ e ∧ (∀ x ∈ d, isWs x = true) ∧
      (∀ x ∈ e, isWs x = true) := by
  refine ⟨s.takeWhile isWs, ((s.dropWhile isWs).reverse.takeWhile isWs).reverse,
    ?_, ?_, ?_⟩
  · unfold pyStrip
    conv_lhs => rw [← List.takeWhile_append_dropWhile isWs s]
    rw [List.append_assoc]
    congr 1
    conv_lhs => rw [← List.reverse_reverse (s.dropWhile isWs),
      ← List.takeWhile_append_dropWhile isWs (s.dropWhile isWs).reverse]
    rw [List.reverse_append]
  · intro x hx
    exact List.mem_takeWhile_imp hx
  · intro x hx
    rw [List.mem_reverse] at hx
    exact List.mem_takeWhile_imp hx

/-- The leading-fence removal strips only fence characters, the
letters of the fence language tag, and whitespace: never a brace. -/
theorem stripFenceOpen_decomp (s : List Char) :
    ∃ d, s = d ++ stripFenceOpen s ∧ ∀ x ∈ d, x ≠ '{' ∧ x ≠ '}' := by
  unfold stripFenceOpen
  split
  · rename_i c1 c2 c3 rest
    split
    · rename_i hcond
      have hc0 : (c1 = fenceChar ∧ c2 = fenceChar) ∧ c3 = fenceChar := by
        simpa [Bool.and_eq_true, decide_eq_true_eq] using hcond
      have hc : c1 = fenceChar ∧ c2 = fenceChar ∧ c3 = fenceChar :=
        ⟨hc0.1.1, hc0.1.2, hc0.2⟩
      split
      · rename_i r
        refine ⟨c1 :: c2 :: c3 :: 'j' :: 's' :: 'o' :: 'n' :: r.takeWhile isWs, ?_, ?_⟩
        · simp only [List.cons_append]
          rw [List.takeWhile_append_dropWhile]
        · intro x hx
          simp only [List.mem_cons] at hx
          rcases hx with h | h | h | h | h | h | h | h <;>
            first
            | (subst h; rw [hc.1]; exact ⟨by decide, by decide⟩)
            | (subst h; rw [hc.2.1]; exact ⟨by decide, by decide⟩)
            | (subst h; rw [hc.2.2]; exact ⟨by decide, by decide⟩)
            | (subst h; exact ⟨by decide, by decide⟩)
            | exact isWs_ne_brace (List.mem_takeWhile_imp h)
      · refine ⟨c1 :: c2 :: c3 :: 'j' :: 's' :: 'o' :: rest.takeWhile isWs, ?_, ?_⟩
        · simp only [List.cons_append]
          rw [List.takeWhile_append_dropWhile]
        · intro x hx
          simp only [List.mem_cons] at hx
          rcases hx with h | h | h | h | h | h | h <;>
            first
            | (subst h; rw [hc.1]; exact ⟨by decide, by decide⟩)
            | (subst h; rw [hc.2.1]; exact ⟨by decide, by decide⟩)
            | (subst h; rw [hc.2.2]; exact ⟨by decide, by decide⟩)
            | (subst h; exact ⟨by decide, by decide⟩)
            | exact isWs_ne_brace (List.mem_takeWhile_imp h)
    · exact ⟨[], rfl, by simp⟩
  · exact ⟨[], rfl, by simp⟩

/-- The trailing-fence removal strips only fence characters and
whitespace at the end: never a brace. -/
theorem stripFenceClose_decomp (s : List Char) :
    ∃ e, s = stripFenceClose s ++ e ∧ ∀ x ∈ e, x ≠ '{' ∧ x ≠ '}' := by
  unfold stripFenceClose
  split
  · rename_i c1 c2 c3 rest heq
    split
    · rename_i hcond
      have hc0 : (c1 = fenceChar ∧ c2 = fenceChar) ∧ c3 = fenceChar := by
        simpa [Bool.and_eq_true, decide_eq_true_eq] using hcond
      have hc : c1 = fenceChar ∧ c2 = fenceChar ∧ c3 = fenceChar :=
        ⟨hc0.1.1, hc0.1.2, hc0.2⟩
      refine ⟨(rest.takeWhile isWs).reverse ++ [c3, c2, c1], ?_, ?_⟩
      · have hs : s = rest.reverse ++ [c3, c2, c1] := by
          have h2 := congrArg List.reverse heq
          simpa [List.reverse_cons, List.append_assoc] using h2
        rw [hs]
        conv_lhs => rw [← List.takeWhile_append_dropWhile isWs rest]
        rw [List.reverse_append, List.append_assoc]
      · intro x hx
        simp only [List.mem_append, List.mem_reverse, List.mem_cons] at hx
        rcases hx with h | h | h | h | h
        · exact isWs_ne_brace (List.mem_takeWhile_imp h)
        · subst h; rw [hc.2.2]; exact ⟨by decide, by decide⟩
        · subst h; rw [hc.2.1]; exact ⟨by decide, by decide⟩
        · subst h; rw [hc.1]; exact ⟨by decide, by decide⟩
        · simp at h
    · exact ⟨[], by simp, by simp⟩
  · exact ⟨[], by simp, by simp⟩

/-- The whole preprocessing pipeline (strip, fence removals) deletes
only brace-free text at the two ends of the response. -/
theorem preprocess_decomp (s : List Char) :
    ∃ d e, s = d ++ stripFenceClose (stripFenceOpen (pyStrip s)) ++ e ∧
      (∀ x ∈ d, x ≠ '{') ∧ (∀ x ∈ e, x ≠ '}') := by
  obtain ⟨d1, e1, h1, hd1, he1⟩ := pyStrip_decomp s
  obtain ⟨d2, h2, hd2⟩ := stripFenceOpen_decomp (pyStrip s)
  obtain ⟨e3, h3, he3⟩ := stripFenceClose_decomp (stripFenceOpen (pyStrip s))
  refine ⟨d1 ++ d2, e3 ++ e1, ?_, ?_, ?_⟩
  · calc s = d1 ++ pyStrip s ++ e1 := h1
      _ = d1 ++ (d2 ++ stripFenceOpen (pyStrip s)) ++ e1 := by rw [← h2]
      _ = d1 ++ (d2 ++ (stripFenceClose (stripFenceOpen (pyStrip s)) ++ e3)) ++ e1 := by
          rw [← h3]
      _ = (d1 ++ d2) ++ stripFenceClose (stripFenceOpen (pyStrip s)) ++ (e3 ++ e1) := by
          simp [List.append_assoc]
  · intro x hx
    rcases List.mem_append.mp hx with h | h
    · exact (isWs_ne_brace (hd1 x h)).1
    · exact (hd2 x h).1
  · intro x hx
    rcases List.mem_append.mp hx with h | h
    · exact (he3 x h).2
    · exact (isWs_ne_brace (he1 x h)).2

/-- The full response post-processing isolates exactly the JSON object
when everything left of it is brace-open-free and everything right of
it is brace-close-free (which covers code fences and ordinary prose on
both sides). -/
theorem findJson_isolates (pre mid post : List Char)
    (hpre : '{' ∉ pre) (hpost : '}' ∉ post) :
    findJson (String.mk (pre ++ '{' :: (mid ++ '}' :: post)))
      = String.mk ('{' :: (mid ++ ['}'])) := by
  unfold findJson
  congr 1
  have hdata : (String.mk (pre ++ '{' :: (mid ++ '}' :: post))).data
      = pre ++ '{' :: (mid ++ '}' :: post) := rfl
  rw [hdata]
  obtain ⟨D, E, hDE, hD, hE⟩ := preprocess_decomp (pre ++ '{' :: (mid ++ '}' :: post))
  obtain ⟨pre2, h2, hpre2⟩ := split_first '{' D pre (mid ++ '}' :: post)
    (stripFenceClose (stripFenceOpen (pyStrip (pre ++ '{' :: (mid ++ '}' :: post)))) ++ E)
    (by conv_lhs => rw [hDE]
        rw [List.append_assoc]) hpre (fun hm => hD '{' hm rfl)
  obtain ⟨post2, h3, hpost2⟩ := split_last '}'
    (stripFenceClose (stripFenceOpen (pyStrip (pre ++ '{' :: (mid ++ '}' :: post))))) E
    (pre2 ++ '{' :: mid) post
    (by rw [h2]; simp [List.append_assoc]) hpost (fun hm => hE '}' hm rfl)
  rw [h3, show (pre2 ++ '{' :: mid) ++ '}' :: post2
      = pre2 ++ '{' :: (mid ++ '}' :: post2) from by simp]
  exact extractBraces_decomp pre2 mid post2 hpre2 hpost2

/-! ## Claims -/

/-- Claim C3: across any sequence of runs against the same source set,
the checkpoint never shrinks until an explicit reset: every checkpoint
content saved during a run contains the set the run loaded.  Running
without the resume flag is the explicit reset (categorize.py line 311
clears the in-memory set), so the claim is stated for runs with the
resume flag on; applied to each run of a sequence it gives the
monotonicity across the whole sequence. -/
theorem C3_checkpoint_monotone (st : CatState) (o : String → Nat → Option String)
    (today : String) (source : List PFile) (limit : Option Nat) (S : List String)
    (h : Ev.saveCheckpoint S ∈ (run st o today source limit true).2) :
    st.processed_files ⊆ S := by
  by_cases hemp : (get_files_to_process st.processed_files source limit).isEmpty = true
  · rw [run_eq_of_empty st o today source limit hemp] at h
    simp at h
  · rw [run_eq_of_not_empty st o today source limit hemp] at h
    simp only [List.mem_append] at h
    rcases h with h | h
    · exact runLoop_saves_superset o today _ st 1 S h
    · simp at h
      try subst h
      try rw [h]
      exact runLoop_processed_mono o today _ st 1

/-- Witness for C3: a resumed run over one new file saves a checkpoint
containing the loaded id. -/
theorem C3_checkpoint_monotone_witness :
    (["old.md"] : List String) ⊆ ["old.md", "a.md"] := by
  have h := C3_checkpoint_monotone ⟨false, [], [], ["old.md"]⟩
    (fun _ _ => some "\x7b\"category\": \"areas\", \"subcategory\": \"health\", \"tags\": [], \"summary\": \"s\"\x7d")
    "2026-01-01" [⟨"a.md", "hello"⟩] none ["old.md", "a.md"] (by decide)
  exact h

/-- Claim C2 counterexample: a preview (dry-run) run is claimed never
to write any file to durable storage, but the final save of run
(categorize.py line 338) is unconditional: this concrete dry run
writes the checkpoint file (and the result log) — the saveCheckpoint
and saveResults events model those durable writes. -/
theorem C2_counterexample :
    (⟨true, [], [], []⟩ : CatState).dry_run = true ∧
      Ev.saveCheckpoint [] ∈
        (run ⟨true, [], [], []⟩
          (fun _ _ => some "\x7b\"category\": \"areas\", \"subcategory\": \"health\", \"tags\": [], \"summary\": \"s\"\x7d")
          "2026-01-01" [⟨"a.md", "hello"⟩] none false).2 ∧
      Ev.saveResults ∈
        (run ⟨true, [], [], []⟩
          (fun _ _ => some "\x7b\"category\": \"areas\", \"subcategory\": \"health\", \"tags\": [], \"summary\": \"s\"\x7d")
          "2026-01-01" [⟨"a.md", "hello"⟩] none false).2 :=
  ⟨rfl, by decide, by decide⟩

/-- Claim C2 as amended: in a preview run no document is written,
moved or deleted and no id is ever added to the in-memory checkpoint
set (so later real runs reprocess everything), but the checkpoint and
result-log files are still written to durable storage at batch
boundaries and at run end. -/
theorem C2_dry_run_reads_only (st : CatState) (o : String → Nat → Option String)
    (today : String) (source : List PFile) (limit : Option Nat) (resume : Bool)
    (hd : st.dry_run = true) :
    (∀ e ∈ (run st o today source limit resume).2, touchesDocs e = false) ∧
      (run st o today source limit resume).1.processed_files
        = (if resume then st.processed_files else []) := by
  have key : ∀ st2 : CatState, st2.dry_run = true →
      (∀ e ∈ (run st2 o today source limit true).2, touchesDocs e = false) ∧
        (run st2 o today source limit true).1.processed_files = st2.processed_files := by
    intro st2 hd2
    by_cases hemp : (get_files_to_process st2.processed_files source limit).isEmpty = true
    · rw [run_eq_of_empty st2 o today source limit hemp]
      exact ⟨by intro e he; simp at he, rfl⟩
    · rw [run_eq_of_not_empty st2 o today source limit hemp]
      have hrl := runLoop_dry o today
        (get_files_to_process st2.processed_files source limit) st2 1 hd2
      constructor
      · intro e he
        simp only [List.mem_append] at he
        rcases he with he | he
        · exact hrl.2 e he
        · simp at he
          rcases he with he | he <;> rw [he] <;> rfl
      · exact hrl.1
  cases resume
  · rw [run_false_eq]
    have h := key { st with processed_files := [] } hd
    exact ⟨h.1, h.2⟩
  · have h := key st hd
    exact ⟨h.1, h.2⟩

/-- Witness for C2 (amended): a concrete dry run touches no document
and leaves the checkpoint set empty. -/
theorem C2_dry_run_reads_only_witness :
    (∀ e ∈ (run ⟨true, [], [], []⟩ (fun _ _ => none) "2026-01-01"
        [⟨"a.md", "hello"⟩] none false).2, touchesDocs e = false) ∧
      (run ⟨true, [], [], []⟩ (fun _ _ => none) "2026-01-01"
        [⟨"a.md", "hello"⟩] none false).1.processed_files = [] := by
  have h := C2_dry_run_reads_only ⟨true, [], [], []⟩ (fun _ _ => none)
    "2026-01-01" [⟨"a.md", "hello"⟩] none false rfl
  exact h

/-- Claim C5: a per-document classification failure (parse or
validation failure after the retry budget, or a service-call
exception) is recorded as an error entry for that document and the
run continues: every eligible file of the run receives exactly one
outcome (a result or an error), so a single failure never terminates
the batch. -/
theorem C5_failures_recorded_run_continues
    (st : CatState) (o : String → Nat → Option String) (today : String)
    (source : List PFile) (limit : Option Nat) (resume : Bool) :
    ((run st o today source limit resume).1.results.length
        + (run st o today source limit resume).1.errors.length
      = st.results.length + st.errors.length
        + (get_files_to_process (if resume then st.processed_files else [])
            source limit).length) ∧
    ∀ f ∈ get_files_to_process (if resume then st.processed_files else [])
        source limit,
      (classify_note f.name (o f.name)).1 = none →
      (f.name, "classification_failed") ∈ (run st o today source limit resume).1.errors := by
  have key : ∀ st2 : CatState,
      ((run st2 o today source limit true).1.results.length
          + (run st2 o today source limit true).1.errors.length
        = st2.results.length + st2.errors.length
          + (get_files_to_process st2.processed_files source limit).length) ∧
      ∀ f ∈ get_files_to_process st2.processed_files source limit,
        (classify_note f.name (o f.name)).1 = none →
        (f.name, "classification_failed") ∈ (run st2 o today source limit true).1.errors := by
    intro st2
    by_cases hemp : (get_files_to_process st2.processed_files source limit).isEmpty = true
    · rw [run_eq_of_empty st2 o today source limit hemp]
      have hnil : get_files_to_process st2.processed_files source limit = [] :=
        List.isEmpty_iff.mp hemp
      rw [hnil]
      exact ⟨by simp, by simp⟩
    · rw [run_eq_of_not_empty st2 o today source limit hemp]
      refine ⟨runLoop_outcome_count o today _ st2 1, ?_⟩
      intro f hf hcl
      exact runLoop_fail_error o today _ st2 1 f hf hcl
  cases resume
  · rw [run_false_eq]
    exact (key { st with processed_files := [] })
  · exact key st

/-- Witness for C5: a run over a failing and a succeeding document
records the failing one and still gives both an outcome. -/
theorem C5_failures_recorded_run_continues_witness :
    ("bad.md", "classification_failed") ∈
      (run ⟨false, [], [], []⟩
        (fun n _ => if n = "bad.md" then some "oops"
          else some "\x7b\"category\": \"areas\", \"subcategory\": \"health\"\x7d")
        "2026-01-01" [⟨"bad.md", "x"⟩, ⟨"good.md", "y"⟩] none false).1.errors := by
  have h := C5_failures_recorded_run_continues ⟨false, [], [], []⟩
    (fun n _ => if n = "bad.md" then some "oops"
      else some "\x7b\"category\": \"areas\", \"subcategory\": \"health\"\x7d")
    "2026-01-01" [⟨"bad.md", "x"⟩, ⟨"good.md", "y"⟩] none false
  exact h.2 ⟨"bad.md", "x"⟩ (by decide) (by decide)

/-- Claim C6: in non-preview processing of a document, the id is
added to the checkpoint set only after the headered content has been
written to the destination and the source removed: in the event trace
of process_file any markProcessed event is preceded by a writeTarget
and a removeSource event, and on classification failure the
checkpoint set is unchanged and no markProcessed event occurs. -/
theorem C6_mark_only_after_write_and_remove
    (st : CatState) (o : String → Nat → Option String) (f : PFile) (today : String)
    (hd : st.dry_run = false) :
    ((classify_note f.name (o f.name)).1 = none →
      (process_file st o f today).1.processed_files = st.processed_files ∧
        ∀ n, Ev.markProcessed n ∉ (process_file st o f today).2) ∧
    (∀ (i : Nat) (n : String),
      (process_file st o f today).2[i]? = some (Ev.markProcessed n) →
      ∃ (jw jr : Nat) (p cc : String), jw < i ∧ jr < i ∧
        (process_file st o f today).2[jw]? = some (Ev.writeTarget p cc) ∧
        (process_file st o f today).2[jr]? = some (Ev.removeSource n)) := by
  rcases hcl : classify_note f.name (o f.name) with ⟨copt, cevs⟩
  have hcevs : ∀ e ∈ cevs, ∃ j, e = Ev.callService f.name j := by
    have h := classify_events f.name (o f.name)
    rw [hcl] at h
    exact h
  cases copt with
  | none =>
    have hpf : process_file st o f today
        = ({ st with errors := st.errors ++ [(f.name, "classification_failed")] },
           cevs ++ [Ev.recordError f.name "classification_failed"]) := by
      unfold process_file
      rw [hcl]
    rw [hpf]
    constructor
    · intro _
      refine ⟨rfl, ?_⟩
      intro n hn
      simp only [List.mem_append] at hn
      rcases hn with hn | hn
      · rcases hcevs _ hn with ⟨j, hj⟩
        exact Ev.noConfusion hj
      · simp at hn
    · intro i n hi
      have hmem := List.getElem?_mem hi
      simp only [List.mem_append] at hmem
      rcases hmem with hm | hm
      · rcases hcevs _ hm with ⟨j, hj⟩
        exact Ev.noConfusion hj
      · simp at hm
  | some c =>
    have hpf : process_file st o f today
        = ({ st with
              results := st.results ++
                [{ file := f.name, classification := c,
                   moved_to := target_rel_path c f.name, dry := false }],
              processed_files := addElem st.processed_files f.name },
           cevs ++ [Ev.writeTarget (target_rel_path c f.name)
                      (add_frontmatter (stemOf f.name) f.content c today),
                    Ev.removeSource f.name, Ev.markProcessed f.name]) := by
      unfold process_file
      rw [hcl]
      simp [hd]
    rw [hpf]
    constructor
    · intro hnone
      simp at hnone
    · intro i n hi
      by_cases hlt : i < cevs.length
      · rw [List.getElem?_append_left hlt] at hi
        rcases hcevs _ (List.getElem?_mem hi) with ⟨j, hj⟩
        exact Ev.noConfusion hj
      · have hle : cevs.length ≤ i := Nat.le_of_not_lt hlt
        rw [List.getElem?_append_right hle] at hi
        obtain ⟨k, hk⟩ : ∃ k, i = cevs.length + k := ⟨i - cevs.length, by omega⟩
        subst hk
        rw [show cevs.length + k - cevs.length = k from by omega] at hi
        rcases k with _ | _ | _ | k3
        · simp at hi
        · simp at hi
        · simp at hi
          refine ⟨cevs.length, cevs.length + 1, target_rel_path c f.name,
            add_frontmatter (stemOf f.name) f.content c today,
            by omega, by omega, ?_, ?_⟩
          · rw [List.getElem?_append_right (Nat.le_refl _)]
            simp
          · rw [List.getElem?_append_right (by omega : cevs.length ≤ cevs.length + 1)]
            rw [show cevs.length + 1 - cevs.length = 1 from by omega]
            simp [hi]
        · simp at hi

/-- Witness for C6: in a concrete successful non-preview processing,
the markProcessed event at index 3 is preceded by the write and the
removal. -/
theorem C6_mark_only_after_write_and_remove_witness :
    ∃ (jw jr : Nat) (p cc : String), jw < 3 ∧ jr < 3 ∧
      (process_file ⟨false, [], [], []⟩
        (fun _ _ => some "\x7b\"category\": \"areas\", \"subcategory\": \"health\"\x7d")
        ⟨"a.md", "hello"⟩ "2026-01-01").2[jw]? = some (Ev.writeTarget p cc) ∧
      (process_file ⟨false, [], [], []⟩
        (fun _ _ => some "\x7b\"category\": \"areas\", \"subcategory\": \"health\"\x7d")
        ⟨"a.md", "hello"⟩ "2026-01-01").2[jr]? = some (Ev.removeSource "a.md") := by
  have h := C6_mark_only_after_write_and_remove ⟨false, [], [], []⟩
    (fun _ _ => some "\x7b\"category\": \"areas\", \"subcategory\": \"health\"\x7d")
    ⟨"a.md", "hello"⟩ "2026-01-01" rfl
  exact h.2 3 "a.md" (by decide)

/-- Claim C1 counterexample: a source document that already bears a
header is claimed to be left untouched (not sent to the service, not
relocated).  In the code, eligibility checks only the checkpoint
(categorize.py line 161), and process_file classifies and moves every
eligible file: this headered document is sent to the classification
service (callService event) and relocated (removeSource event). -/
theorem C1_counterexample :
    pyStartsWith "---\ntitle: x\n---\nbody" "---" = true ∧
      Ev.callService "a.md" 0 ∈
        (process_file ⟨false, [], [], []⟩
          (fun _ _ => some "\x7b\"category\": \"areas\", \"subcategory\": \"health\"\x7d")
          ⟨"a.md", "---\ntitle: x\n---\nbody"⟩ "2026-01-01").2 ∧
      Ev.removeSource "a.md" ∈
        (process_file ⟨false, [], [], []⟩
          (fun _ _ => some "\x7b\"category\": \"areas\", \"subcategory\": \"health\"\x7d")
          ⟨"a.md", "---\ntitle: x\n---\nbody"⟩ "2026-01-01").2 := by
  refine ⟨by decide, by decide, by decide⟩

/-- Claim C1 as amended: a document is skipped entirely only when its
id is in the checkpoint; a document that already bears a header but is
not checkpointed is still sent to the classification service and
relocated, yet its content is preserved verbatim: no second header is
prepended, and the content written at the destination equals the
source content. -/
theorem C1_headered_documents (st : CatState) (o : String → Nat → Option String)
    (f : PFile) (today : String) (c : JDict)
    (hd : st.dry_run = false)
    (hh : pyStartsWith f.content "---" = true)
    (hcl : (classify_note f.name (o f.name)).1 = some c) :
    (∀ (processed : List String) (source : List PFile) (limit : Option Nat),
        processed.contains f.name = true →
        f ∉ get_files_to_process processed source limit) ∧
      Ev.writeTarget (target_rel_path c f.name) f.content
        ∈ (process_file st o f today).2 ∧
      Ev.removeSource f.name ∈ (process_file st o f today).2 := by
  have haf : add_frontmatter (stemOf f.name) f.content c today = f.content := by
    unfold add_frontmatter
    rw [hh]
    simp
  refine ⟨?_, ?_, ?_⟩
  · intro processed source limit hmemp hmemf
    unfold get_files_to_process at hmemf
    have hf2 : f ∈ (sortByName source).filter (fun g => !(processed.contains g.name)) := by
      cases limit with
      | none => exact hmemf
      | some m =>
        by_cases hm : m = 0
        · simp only [hm, if_pos] at hmemf
          exact hmemf
        · simp only [hm, if_neg, ite_false] at hmemf
          exact List.mem_of_mem_take hmemf
    have hflt := (List.mem_filter.mp hf2).2
    rw [hmemp] at hflt
    simp at hflt
  · rcases hcl2 : classify_note f.name (o f.name) with ⟨copt, cevs⟩
    rw [hcl2] at hcl
    simp at hcl
    subst hcl
    unfold process_file
    rw [hcl2]
    simp [hd, haf]
  · rcases hcl2 : classify_note f.name (o f.name) with ⟨copt, cevs⟩
    rw [hcl2] at hcl
    simp at hcl
    subst hcl
    unfold process_file
    rw [hcl2]
    simp [hd]

/-- Witness for C1 (amended): concrete headered document, preserved
verbatim at its destination while being relocated. -/
theorem C1_headered_documents_witness :
    Ev.writeTarget
        (target_rel_path
          [("category", Json.str "areas"), ("subcategory", Json.str "health")] "a.md")
        "---\ntitle: x\n---\nbody"
      ∈ (process_file ⟨false, [], [], []⟩
          (fun _ _ => some "\x7b\"category\": \"areas\", \"subcategory\": \"health\"\x7d")
          ⟨"a.md", "---\ntitle: x\n---\nbody"⟩ "2026-01-01").2 := by
  have h := C1_headered_documents ⟨false, [], [], []⟩
    (fun _ _ => some "\x7b\"category\": \"areas\", \"subcategory\": \"health\"\x7d")
    ⟨"a.md", "---\ntitle: x\n---\nbody"⟩ "2026-01-01"
    [("category", Json.str "areas"), ("subcategory", Json.str "health")]
    rfl (by decide) (by decide)
  exact h.2.1

/-- Claim C4: every classification result accepted by the retry loop
satisfies the closed taxonomy: its category is a key of the fixed
CATEGORIES table and its subcategory belongs to that category's set;
and a result rejected by validation on the first attempt triggers a
retry: the outcome is that of the remaining attempts.  Since
process_file writes headers only from accepted results, no violating
result is ever written. -/
theorem C4_accepted_results_satisfy_taxonomy :
    (∀ (file : String) (rs : Nat → Option String) (r : JDict),
        (classify_note file rs).1 = some r →
        ∃ (c s : String) (subs : List String),
          dictGet r "category" = some (Json.str c) ∧
          dictGet r "subcategory" = some (Json.str s) ∧
          CATEGORIES.find? (fun p => p.1 == c) = some (c, subs) ∧
          subs.contains s = true) ∧
    ∀ (file : String) (rs : Nat → Option String),
      classifyAttempt (rs 0) = AttemptResult.softFail →
      (classify_note file rs).1 = (classifyFrom file rs 1 (retry_attempts - 1)).1 := by
  constructor
  · intro file rs r h
    have hv := classifyFrom_sound file rs retry_attempts 0 r h
    unfold validate_result at hv
    cases hcat : dictGet r "category" <;> rw [hcat] at hv
    · simp at hv
    · cases hsub : dictGet r "subcategory" <;> rw [hsub] at hv
      · simp at hv
      · rename_i cat sub
        cases cat <;> try simp at hv
        rename_i category
        cases hfind : CATEGORIES.find? (fun p => p.1 == category) <;> rw [hfind] at hv
        · simp at hv
        · rename_i pr
          cases sub <;> try simp at hv
          rename_i subcategory
          refine ⟨category, subcategory, pr.2, rfl, rfl, ?_, ?_⟩
          · have hp := List.find?_some hfind
            have hp1 : pr.1 = category := by
              have := of_decide_eq_true hp
              exact this
            have hpe : (category, pr.2) = pr := by rw [← hp1]
            rw [hpe]
            exact hfind
          · simpa using hv
  · intro file rs h
    unfold classify_note retry_attempts
    rw [classifyFrom]
    rw [h]
    simp [retry_attempts]

/-- Witness for C4: a valid accepted result exhibits its taxonomy
membership, and a response failing validation on attempt zero defers
to the remaining attempts. -/
theorem C4_accepted_results_satisfy_taxonomy_witness :
    (∃ (c s : String) (subs : List String),
        dictGet [("category", Json.str "areas"), ("subcategory", Json.str "health")]
            "category" = some (Json.str c) ∧
        dictGet [("category", Json.str "areas"), ("subcategory", Json.str "health")]
            "subcategory" = some (Json.str s) ∧
        CATEGORIES.find? (fun p => p.1 == c) = some (c, subs) ∧
        subs.contains s = true) ∧
      (classify_note "f"
          (fun i => if i = 0
            then some "\x7b\"category\": \"areas\", \"subcategory\": \"nope\"\x7d"
            else some "\x7b\"category\": \"areas\", \"subcategory\": \"health\"\x7d")).1
        = (classifyFrom "f"
            (fun i => if i = 0
              then some "\x7b\"category\": \"areas\", \"subcategory\": \"nope\"\x7d"
              else some "\x7b\"category\": \"areas\", \"subcategory\": \"health\"\x7d")
            1 (retry_attempts - 1)).1 := by
  constructor
  · exact C4_accepted_results_satisfy_taxonomy.1 "f"
      (fun _ => some "\x7b\"category\": \"areas\", \"subcategory\": \"health\"\x7d")
      [("category", Json.str "areas"), ("subcategory", Json.str "health")]
      (by decide)
  · exact C4_accepted_results_satisfy_taxonomy.2 "f" _ (by decide)

/-- The per-tag bucket length equals the number of notes carrying the
tag, when each note lists its tags without duplicates (the spec's data
model makes tags a set per note). -/
theorem by_tag_length (tag : String) :
    ∀ (notes : List Note), (∀ n ∈ notes, n.tags.Nodup) → tag ≠ "" →
      (by_tag notes tag).length
        = (notes.filter (fun n => n.tags.contains tag)).length := by
  intro notes
  induction notes with
  | nil => intro _ _; rfl
  | cons n ns ih =>
    intro hn ht
    have hrest := ih (fun m hm => hn m (List.mem_cons_of_mem n hm)) ht
    simp only [by_tag] at hrest ⊢
    rw [List.flatMap_cons, List.filter_cons]
    simp only [List.length_append, List.length_replicate]
    by_cases hc : n.tags.contains tag
    · have hocc : tag_occurrences n tag = 1 := by
        unfold tag_occurrences
        rw [if_neg ht]
        exact List.count_eq_one_of_mem (hn n (List.mem_cons_self n ns))
          (List.elem_iff.mp hc)
      simp only [hc, if_true, List.length_cons]
      omega
    · have hocc : tag_occurrences n tag = 0 := by
        unfold tag_occurrences
        rw [if_neg ht]
        exact List.count_eq_zero_of_not_mem (fun hmem => hc (List.elem_iff.mpr hmem))
      simp only [Bool.not_eq_true] at hc
      simp only [hc, Bool.false_eq_true, if_false]
      omega

/-- Claim C8: with threshold min_notes_for_tag_moc, a tag carried by
exactly threshold-1 notes gets no tag hub file, and a tag carried by
exactly threshold notes gets one.  Notes list their tags without
duplicates (tags are a set per note in the data model) and the empty
string is not a tag (it is falsy and skipped by the grouping). -/
theorem C8_tag_hub_threshold (notes4 notes5 : List Note) (tag : String)
    (hn4 : ∀ n ∈ notes4, n.tags.Nodup) (hn5 : ∀ n ∈ notes5, n.tags.Nodup)
    (ht : tag ≠ "")
    (h4 : (notes4.filter (fun n => n.tags.contains tag)).length
        = min_notes_for_tag_moc - 1)
    (h5 : (notes5.filter (fun n => n.tags.contains tag)).length
        = min_notes_for_tag_moc) :
    tag_moc_generated notes4 tag = false ∧ tag_moc_generated notes5 tag = true := by
  unfold tag_moc_generated
  rw [by_tag_length tag notes4 hn4 ht, by_tag_length tag notes5 hn5 ht, h4, h5]
  exact ⟨by decide, by decide⟩

/-- Witness for C8: four notes with the tag give no hub, five do. -/
theorem C8_tag_hub_threshold_witness :
    tag_moc_generated ((List.range 4).map sampleNote) "python" = false ∧
      tag_moc_generated ((List.range 5).map sampleNote) "python" = true :=
  C8_tag_hub_threshold ((List.range 4).map sampleNote)
    ((List.range 5).map sampleNote) "python"
    (by decide) (by decide) (by decide) (by decide) (by decide)

/-- Claim C9 counterexample: the tags value of a scanned document is
not always normalized to a sequence.  A string value is handed to
json.loads and whatever comes back is kept: a frontmatter tags value
that is the five-character string with quotes around abc decodes to
the plain string abc, so the produced index entry carries a string,
not a sequence, in its tags field (build_index.py line 95 keeps any
decoded value). -/
theorem C9_counterexample :
    (mk_index_entry "a.md" [("tags", Json.str "\"abc\"")]).tags = Json.str "abc" := by
  decide

/-- Claim C9 as amended: a tags value that is already a sequence is
kept and an absent value defaults to the empty sequence; a string
value is JSON-decoded when possible and the decoded value is used
whatever its type (an encoded array yields that array, an encoded
scalar yields that scalar, which is not a sequence); a string that
does not decode is wrapped in a singleton sequence.  Hence the tags
field is a sequence for sequence inputs and for strings that decode
to arrays or fail to decode, but not for every input. -/
theorem C9_tags_normalization (name : String) (fm : JDict) :
    (∀ xs, dictGet fm "tags" = some (Json.arr xs) →
        (mk_index_entry name fm).tags = Json.arr xs) ∧
    (dictGet fm "tags" = none → (mk_index_entry name fm).tags = Json.arr []) ∧
    (∀ s, dictGet fm "tags" = some (Json.str s) → json_loads_top s = none →
        (mk_index_entry name fm).tags = Json.arr [s]) ∧
    (∀ s j, dictGet fm "tags" = some (Json.str s) → json_loads_top s = some j →
        (mk_index_entry name fm).tags = j) := by
  refine ⟨?_, ?_, ?_, ?_⟩
  · intro xs h
    simp [mk_index_entry, normalize_tags, h]
  · intro h
    simp [mk_index_entry, normalize_tags, h]
  · intro s h hj
    simp [mk_index_entry, normalize_tags, h, hj]
  · intro s j h hj
    simp [mk_index_entry, normalize_tags, h, hj]

/-- Witness for C9 (amended): a plain word that is not JSON is wrapped
into a singleton sequence. -/
theorem C9_tags_normalization_witness :
    (mk_index_entry "a.md" [("tags", Json.str "python")]).tags
      = Json.arr ["python"] := by
  exact (C9_tags_normalization "a.md" [("tags", Json.str "python")]).2.2.1
    "python" (by decide) (by decide)

/-- Claim C10: validation requires only the category and subcategory
keys; a result whose category and subcategory are valid is accepted
even with tags and summary absent, and the synthesized header then
records an empty tag list and an empty summary string. -/
theorem C10_validation_defaults (r : JDict) (c s : String) (subs : List String)
    (stem content date : String)
    (hc : dictGet r "category" = some (Json.str c))
    (hs : dictGet r "subcategory" = some (Json.str s))
    (hfind : CATEGORIES.find? (fun p => p.1 == c) = some (c, subs))
    (hmem : subs.contains s = true)
    (htags : dictGet r "tags" = none)
    (hsum : dictGet r "summary" = none)
    (hcontent : pyStartsWith content "---" = false) :
    validate_result r = PyResult.ok true ∧
      add_frontmatter stem content r date
        = "---\ntitle: \"" ++ stem ++ "\"\ncategory: " ++ c
            ++ "\nsubcategory: " ++ s ++ "\ntags: " ++ "[]"
            ++ "\nsummary: \"" ++ "" ++ "\"\nprocessed: " ++ date
            ++ "\n---\n\n" ++ content := by
  constructor
  · simp [validate_result, hc, hs, hfind]
    exact List.elem_iff.mp hmem
  · unfold add_frontmatter
    rw [hcontent]
    simp [getStrD, hc, hs, htags, hsum, dumpJson,
      show String.intercalate ", " ([] : List String) = "" from rfl]

/-- Witness for C10: a result with only category and subcategory is
validated and produces the defaulted header. -/
theorem C10_validation_defaults_witness :
    validate_result [("category", Json.str "areas"), ("subcategory", Json.str "health")]
        = PyResult.ok true ∧
      add_frontmatter "a" "body"
          [("category", Json.str "areas"), ("subcategory", Json.str "health")]
          "2026-01-01"
        = "---\ntitle: \"" ++ "a" ++ "\"\ncategory: " ++ "areas"
            ++ "\nsubcategory: " ++ "health" ++ "\ntags: " ++ "[]"
            ++ "\nsummary: \"" ++ "" ++ "\"\nprocessed: " ++ "2026-01-01"
            ++ "\n---\n\n" ++ "body" := by
  exact C10_validation_defaults
    [("category", Json.str "areas"), ("subcategory", Json.str "health")]
    "areas" "health" ["health", "finance", "career", "family"]
    "a" "body" "2026-01-01"
    (by decide) (by decide) (by decide) (by decide) (by decide) (by decide) (by decide)

/-- Claim C7: a classification response that wraps its single JSON
object in code-fence markup with extra prose before and/or after the
object is still parsed into that object's fields: the response
pipeline recovers exactly what parsing the bare object yields.  Prose
and fences are formalized as arbitrary surrounding text with no
brace-open before the object and no brace-close after it (the
defensive first-brace/last-brace isolation cannot, by design,
distinguish braces in prose from the object's braces). -/
theorem C7_fenced_response_parses (pre mid post : List Char) (r : JDict)
    (hpre : '{' ∉ pre) (hpost : '}' ∉ post)
    (hobj : json_loads (String.mk ('{' :: (mid ++ ['}']))) = some r) :
    json_loads (findJson (String.mk (pre ++ '{' :: (mid ++ '}' :: post)))) = some r := by
  rw [findJson_isolates pre mid post hpre hpost]
  exact hobj

/-- Witness for C7: a concrete fenced response with prose on both
sides parses into its four fields. -/
theorem C7_fenced_response_parses_witness :
    json_loads (findJson (String.mk (
        ("Here is the classification:\n```json\n").data
          ++ '{' :: (("\"category\": \"areas\", \"subcategory\": \"health\", \"tags\": [\"fitness\"], \"summary\": \"notes\"").data
          ++ '}' :: ("\n```\nHope this helps!").data))))
      = some [("category", Json.str "areas"), ("subcategory", Json.str "health"),
              ("tags", Json.arr ["fitness"]), ("summary", Json.str "notes")] := by
  exact C7_fenced_response_parses _ _ _ _ (by decide) (by decide) (by decide)

end DocCat
